import Mathlib

/-!
Shallow embedding of the external-dns-sdk crate (src/lib.rs, src/client.rs,
src/provider.rs): the Endpoint/Change data model, the `EndpointDiff::difference`
diff engine, the `Changes` wire-batch conversions, the client's request
builders and response decoding, and the server dispatcher's route table.

Machine integers (`i64` ttl) are modelled as `Int`; byte buffers as `List Nat`
(one `Nat` per byte); `HashMap`s as association lists with lookup-extensional
equality; the unordered iteration of `HashSet`s in `difference` is fixed to
first-occurrence order of the underlying key lists.
-/

namespace ExternalDnsSdk

/-- External `kubizone_common::DomainName`: opaque external value type with structural
equality and hashing; modelled as its string representation. -/
abbrev DomainName := String

/-- External `kubizone_common::Type` (DNS record type): opaque external value type with
structural equality and hashing; modelled as its string representation. -/
abbrev RecordType := String

/-- Rust `EndpointIdent` (src/lib.rs): uniquely identifiable parts of an Endpoint. -/
structure EndpointIdent where
  dnsName : DomainName
  recordType : RecordType
  setIdentifier : String
deriving DecidableEq, Repr

/-- Rust `ProviderSpecificProperty` (src/lib.rs). -/
structure ProviderSpecificProperty where
  name : String
  value : String
deriving DecidableEq, Repr

/-- Rust `Endpoint` (src/lib.rs): domain and record type with one or more targets.
`record_ttl: i64` is modelled as `Int`; the `labels: HashMap<String, String>`
is modelled as an association list (see `hashMapEq` for its `==`). -/
structure Endpoint where
  identity : EndpointIdent
  targets : List String
  recordTTL : Int
  labels : List (String × String)
  providerSpecific : List ProviderSpecificProperty
deriving DecidableEq, Repr

/-- Lookup in an association list modelling `HashMap<String, String>`. -/
def labelsLookup (k : String) : List (String × String) → Option String
  | [] => none
  | kv :: rest => if kv.1 = k then some kv.2 else labelsLookup k rest

/-- Rust `PartialEq` for `HashMap<String, String>`: two maps are equal iff they
associate the same value (or no value) to every key.  Checking the keys of
both lists suffices. -/
def hashMapEq (a b : List (String × String)) : Bool :=
  (a.map Prod.fst ++ b.map Prod.fst).all fun k => labelsLookup k a == labelsLookup k b

/-- Derived `PartialEq` for `Endpoint` (src/lib.rs): structural on all fields,
with `HashMap` semantics for `labels`. -/
def endpointEq (a b : Endpoint) : Bool :=
  a.identity == b.identity && a.targets == b.targets && a.recordTTL == b.recordTTL
    && hashMapEq a.labels b.labels && a.providerSpecific == b.providerSpecific

/-- Rust `Changes` (src/lib.rs): the wire batch shape. -/
structure Changes where
  create : List Endpoint
  updateOld : List Endpoint
  updateNew : List Endpoint
  delete : List Endpoint
deriving DecidableEq, Repr

/-- Rust `Change` (src/lib.rs): change to apply to the record set held by the
provider. -/
inductive Change where
  | Update (old new : Endpoint)
  | Delete (endpoint : Endpoint)
  | Create (endpoint : Endpoint)
deriving DecidableEq, Repr

/-- The identity a `Change` is keyed on (an `Update` is keyed on its `old`
endpoint's identity). -/
def changeIdent : Change → EndpointIdent
  | .Update old _ => old.identity
  | .Delete e => e.identity
  | .Create e => e.identity

def isUpdateChange : Change → Bool
  | .Update _ _ => true
  | _ => false

def isDeleteChange : Change → Bool
  | .Delete _ => true
  | _ => false

def isCreateChange : Change → Bool
  | .Create _ => true
  | _ => false

/-- Rust `impl From<Changes> for Vec<Change>` (src/lib.rs): deletes first, then for
each `update_old` entry the first `update_new` entry with a matching identity
(entries without a match are dropped), then creates; each loop is a fold
pushing onto the output vector. -/
def changesToVec (changes : Changes) : List Change :=
  let out : List Change := []
  let out := changes.delete.foldl (fun out e => out ++ [Change.Delete e]) out
  let out := changes.updateOld.foldl
    (fun out old =>
      match changes.updateNew.find? (fun n => decide (n.identity = old.identity)) with
      | some n => out ++ [Change.Update old n]
      | none => out)
    out
  changes.create.foldl (fun out e => out ++ [Change.Create e]) out

/-- Rust `impl From<Vec<Change>> for Changes` (src/lib.rs): partition the ordered
change list into the four arrays, appending in input order; an `Update`
contributes to both `update_old` and `update_new`. -/
def vecToChanges (value : List Change) : Changes :=
  value.foldl
    (fun out change =>
      match change with
      | .Update old new =>
          { out with updateOld := out.updateOld ++ [old], updateNew := out.updateNew ++ [new] }
      | .Delete e => { out with delete := out.delete ++ [e] }
      | .Create e => { out with create := out.create ++ [e] })
    ⟨[], [], [], []⟩

/-- Lookup in the `HashMap<EndpointIdent, Endpoint>` built by
`HashMap::from_iter` in `difference` (src/lib.rs): on duplicate identities the
last occurrence wins, hence the search over the reversed list. -/
def mapLookup (k : EndpointIdent) (l : List Endpoint) : Option Endpoint :=
  l.reverse.find? fun e => decide (e.identity = k)

/-- Key set of the `HashMap<EndpointIdent, Endpoint>` built in `difference`;
the unordered `HashSet` iteration is fixed to the order of the underlying
list, deduplicated. -/
def mapKeys (l : List Endpoint) : List EndpointIdent :=
  (l.map Endpoint.identity).dedup

/-- The `deletes` group of `EndpointDiff::difference` (src/lib.rs): keys
present only in the old map, mapped to `Change::Delete` of the old endpoint. -/
def diffDeletes (self other : List Endpoint) : List Change :=
  ((mapKeys self).filter fun k => decide (k ∉ mapKeys other)).filterMap
    fun k => (mapLookup k self).map Change.Delete

/-- The `updates` group of `EndpointDiff::difference` (src/lib.rs): keys in
both maps whose endpoints are not equal, mapped to `Change::Update`. -/
def diffUpdates (self other : List Endpoint) : List Change :=
  ((mapKeys self).filter fun k => decide (k ∈ mapKeys other)).filterMap
    fun k =>
      match mapLookup k self, mapLookup k other with
      | some old, some new => if endpointEq old new then none else some (Change.Update old new)
      | _, _ => none

/-- The `creates` group of `EndpointDiff::difference` (src/lib.rs): keys
present only in the new map, mapped to `Change::Create` of the new endpoint. -/
def diffCreates (self other : List Endpoint) : List Change :=
  ((mapKeys other).filter fun k => decide (k ∉ mapKeys self)).filterMap
    fun k => (mapLookup k other).map Change.Create

/-- Rust `EndpointDiff::difference` for `Vec<Endpoint>` (src/lib.rs): chains the
deletes, then the updates, then the creates. -/
def difference (self other : List Endpoint) : List Change :=
  diffDeletes self other ++ diffUpdates self other ++ diffCreates self other

/-! ### Wire protocol codec and client (src/client.rs) -/

/-- Is `b` a UTF-8 continuation byte (`0x80..=0xBF`)? -/
def isContByte (b : Nat) : Bool :=
  0x80 ≤ b && b ≤ 0xBF

/-- Admissible second byte of a three-byte UTF-8 sequence starting with `b0`
(excludes overlong encodings and surrogates, as Rust's `String::from_utf8`
does). -/
def isCont3 (b0 b1 : Nat) : Bool :=
  if b0 = 0xE0 then 0xA0 ≤ b1 && b1 ≤ 0xBF
  else if b0 = 0xED then 0x80 ≤ b1 && b1 ≤ 0x9F
  else isContByte b1

/-- Admissible second byte of a four-byte UTF-8 sequence starting with `b0`
(excludes overlong encodings and code points above `U+10FFFF`). -/
def isCont4 (b0 b1 : Nat) : Bool :=
  if b0 = 0xF0 then 0x90 ≤ b1 && b1 ≤ 0xBF
  else if b0 = 0xF4 then 0x80 ≤ b1 && b1 ≤ 0x8F
  else isContByte b1

/-- Strict UTF-8 decoding of a byte sequence into Unicode scalar values;
`none` on any invalid sequence.  Models `String::from_utf8`. -/
def decodeUtf8 : List Nat → Option (List Nat)
  | [] => some []
  | b0 :: rest =>
    if b0 < 0x80 then (decodeUtf8 rest).map (b0 :: ·)
    else if b0 < 0xC2 then none
    else if b0 ≤ 0xDF then
      match rest with
      | b1 :: rest2 =>
        if isContByte b1 then (decodeUtf8 rest2).map ((b0 % 32 * 64 + b1 % 64) :: ·) else none
      | [] => none
    else if b0 ≤ 0xEF then
      match rest with
      | b1 :: b2 :: rest3 =>
        if isCont3 b0 b1 && isContByte b2 then
          (decodeUtf8 rest3).map ((b0 % 16 * 4096 + b1 % 64 * 64 + b2 % 64) :: ·)
        else none
      | _ => none
    else if b0 ≤ 0xF4 then
      match rest with
      | b1 :: b2 :: b3 :: rest4 =>
        if isCont4 b0 b1 && isContByte b2 && isContByte b3 then
          (decodeUtf8 rest4).map
            ((b0 % 8 * 262144 + b1 % 64 * 4096 + b2 % 64 * 64 + b3 % 64) :: ·)
        else none
      | _ => none
    else none

/-- Rust `String::from_utf8`: the response payload as a string, or `none` if the
bytes are not valid UTF-8. -/
def fromUtf8 (bytes : List Nat) : Option String :=
  (decodeUtf8 bytes).map fun scalars => String.mk (scalars.map Char.ofNat)

/-- Lossy UTF-8 decoding to Unicode scalar values: each maximal subpart of an
ill-formed sequence is replaced by `U+FFFD`.  Models
`String::from_utf8_lossy`. -/
def lossyUtf8 : List Nat → List Nat
  | [] => []
  | b0 :: rest =>
    if b0 < 0x80 then b0 :: lossyUtf8 rest
    else if b0 < 0xC2 then 0xFFFD :: lossyUtf8 rest
    else if b0 ≤ 0xDF then
      match rest with
      | b1 :: rest2 =>
        if isContByte b1 then (b0 % 32 * 64 + b1 % 64) :: lossyUtf8 rest2
        else 0xFFFD :: lossyUtf8 (b1 :: rest2)
      | [] => [0xFFFD]
    else if b0 ≤ 0xEF then
      match rest with
      | b1 :: rest2 =>
        if isCont3 b0 b1 then
          match rest2 with
          | b2 :: rest3 =>
            if isContByte b2 then (b0 % 16 * 4096 + b1 % 64 * 64 + b2 % 64) :: lossyUtf8 rest3
            else 0xFFFD :: lossyUtf8 (b2 :: rest3)
          | [] => [0xFFFD]
        else 0xFFFD :: lossyUtf8 (b1 :: rest2)
      | [] => [0xFFFD]
    else if b0 ≤ 0xF4 then
      match rest with
      | b1 :: rest2 =>
        if isCont4 b0 b1 then
          match rest2 with
          | b2 :: rest3 =>
            if isContByte b2 then
              match rest3 with
              | b3 :: rest4 =>
                if isContByte b3 then
                  (b0 % 8 * 262144 + b1 % 64 * 4096 + b2 % 64 * 64 + b3 % 64) :: lossyUtf8 rest4
                else 0xFFFD :: lossyUtf8 (b3 :: rest4)
              | [] => [0xFFFD]
            else 0xFFFD :: lossyUtf8 (b2 :: rest3)
          | [] => [0xFFFD]
        else 0xFFFD :: lossyUtf8 (b1 :: rest2)
      | [] => [0xFFFD]
    else 0xFFFD :: lossyUtf8 rest

/-- Rust `String::from_utf8_lossy` applied to the response bytes. -/
def fromUtf8Lossy (bytes : List Nat) : String :=
  String.mk ((lossyUtf8 bytes).map Char.ofNat)

/-- Rust `client::Error` (src/client.rs).  The payloads of the transport,
serialization and URL variants are irrelevant to the claims and elided. -/
inductive ClientError where
  | Reqwest
  | Serialization
  | Deserialization
  | UrlError
  | Webhook (status : Nat) (text : String)
  | InvalidUtf8
deriving DecidableEq, Repr

/-- Is this the `Error::Webhook` (remote-error) variant? -/
def isRemoteError : ClientError → Bool
  | .Webhook _ _ => true
  | _ => false

/-- Rust `StatusCode::is_success`: the 2xx class. -/
def isSuccessStatus (status : Nat) : Bool :=
  200 ≤ status && status ≤ 299

/-- Rust `Client::parse_response` (src/client.rs): read the body bytes, validate
them as UTF-8 (failing with `Error::InvalidUtf8`), then on a success status
parse the text with the expected JSON shape's parser (failing with
`Error::Deserialization`), and on a non-success status fail with
`Error::Webhook(status, payload)`.  The JSON parser for the expected shape `T`
is a parameter. -/
def parse_response {T : Type} (parse : String → Option T) (status : Nat) (body : List Nat) :
    Except ClientError T :=
  match fromUtf8 body with
  | none => .error .InvalidUtf8
  | some payload =>
    if isSuccessStatus status then
      match parse payload with
      | some value => .ok value
      | none => .error .Deserialization
    else .error (.Webhook status payload)

/-- The response handling of `Client::set_records` (src/client.rs): a success
status yields `Ok(())` without touching the body; otherwise the body is
decoded lossily and wrapped in `Error::Webhook`. -/
def set_records_decode (status : Nat) (body : List Nat) : Except ClientError Unit :=
  if isSuccessStatus status then .ok ()
  else .error (.Webhook status (fromUtf8Lossy body))

/-! ### JSON values and the serde codec for `Endpoint` and `Changes` -/

/-- JSON values (numbers restricted to integers; the wire shapes only carry
`int64`). -/
inductive Json where
  | null
  | bool (b : Bool)
  | num (n : Int)
  | str (s : String)
  | arr (items : List Json)
  | obj (fields : List (String × Json))

/-- First field of a JSON object with the given name. -/
def jsonField (name : String) (fields : List (String × Json)) : Option Json :=
  (fields.find? fun f => decide (f.1 = name)).map Prod.snd

def jsonAsStr : Json → Option String
  | .str s => some s
  | _ => none

def jsonAsInt : Json → Option Int
  | .num n => some n
  | _ => none

def jsonAsStrList : Json → Option (List String)
  | .arr items => items.mapM jsonAsStr
  | _ => none

def jsonAsStrMap : Json → Option (List (String × String))
  | .obj fields => fields.mapM fun f => (jsonAsStr f.2).map (f.1, ·)
  | _ => none

/-- serde `Deserialize` for `ProviderSpecificProperty` (src/lib.rs). -/
def deserializeProviderSpecific : Json → Option ProviderSpecificProperty
  | .obj fields => do
    let name ← jsonField "name" fields >>= jsonAsStr
    let value ← jsonField "value" fields >>= jsonAsStr
    pure ⟨name, value⟩
  | _ => none

/-- serde `Deserialize` for `Endpoint` (src/lib.rs): camelCase field names,
the identity flattened into the object, `recordTTL` a required `i64` (a
non-integer or `null` value fails), `labels` and `providerSpecific` defaulted
when the field is missing. -/
def deserializeEndpoint : Json → Option Endpoint
  | .obj fields => do
    let dnsName ← jsonField "dnsName" fields >>= jsonAsStr
    let recordType ← jsonField "recordType" fields >>= jsonAsStr
    let setIdentifier ← jsonField "setIdentifier" fields >>= jsonAsStr
    let targets ← jsonField "targets" fields >>= jsonAsStrList
    let recordTTL ← jsonField "recordTTL" fields >>= jsonAsInt
    let labels ←
      match jsonField "labels" fields with
      | none => some []
      | some v => jsonAsStrMap v
    let providerSpecific ←
      match jsonField "providerSpecific" fields with
      | none => some []
      | some (.arr items) => items.mapM deserializeProviderSpecific
      | some _ => none
    pure ⟨⟨dnsName, recordType, setIdentifier⟩, targets, recordTTL, labels, providerSpecific⟩
  | _ => none

/-- serde `Serialize` for `Endpoint` (src/lib.rs): camelCase, identity
flattened, ttl under `recordTTL`. -/
def serializeEndpoint (e : Endpoint) : Json :=
  .obj
    [("dnsName", .str e.identity.dnsName),
     ("recordType", .str e.identity.recordType),
     ("setIdentifier", .str e.identity.setIdentifier),
     ("targets", .arr (e.targets.map .str)),
     ("recordTTL", .num e.recordTTL),
     ("labels", .obj (e.labels.map fun kv => (kv.1, .str kv.2))),
     ("providerSpecific",
       .arr (e.providerSpecific.map fun p => .obj [("name", .str p.name), ("value", .str p.value)]))]

/-- serde `Serialize` for `Changes` (src/lib.rs): camelCase field names. -/
def serializeChanges (c : Changes) : Json :=
  .obj
    [("create", .arr (c.create.map serializeEndpoint)),
     ("updateOld", .arr (c.updateOld.map serializeEndpoint)),
     ("updateNew", .arr (c.updateNew.map serializeEndpoint)),
     ("delete", .arr (c.delete.map serializeEndpoint))]

/-! ### Client request building and the dispatcher route table -/

/-- The webhook media type (src/client.rs). -/
def mediaType : String := "application/external.dns.webhook+json;version=1"

/-- An HTTP request as the client builds it: method, path relative to the
protocol root, optional body, and the optional standard headers it sets. -/
structure Request where
  method : String
  path : String
  body : Option Json
  contentType : Option String
  accept : Option String

/-- Rust `Client::init` (src/client.rs): a plain GET of the protocol root, no
body, no headers set. -/
def initRequest : Request :=
  { method := "GET", path := "/", body := none, contentType := none, accept := none }

/-- Rust `Client::healthz` (src/client.rs): GET of `healthz`, no body, no headers
set. -/
def healthzRequest : Request :=
  { method := "GET", path := "/healthz", body := none, contentType := none, accept := none }

/-- Rust `Client::get_records` (src/client.rs): GET of `records`, no body, only an
`Accept` header. -/
def getRecordsRequest : Request :=
  { method := "GET", path := "/records", body := none, contentType := none,
    accept := some mediaType }

/-- Rust `Client::set_records` (src/client.rs): POST of `records` with the
serialized `Changes` batch (converted from the change list) as body and a
`Content-Type` header. -/
def setRecordsRequest (changes : List Change) : Request :=
  { method := "POST", path := "/records", body := some (serializeChanges (vecToChanges changes)),
    contentType := some mediaType, accept := none }

/-- Rust `Client::adjust_endpoints` (src/client.rs): POST of `adjustendpoints` with
the serialized endpoint list as body, `Content-Type` and `Accept` headers. -/
def adjustEndpointsRequest (endpoints : List Endpoint) : Request :=
  { method := "POST", path := "/adjustendpoints",
    body := some (.arr (endpoints.map serializeEndpoint)),
    contentType := some mediaType, accept := some mediaType }

/-- The provider capability set (src/provider.rs `Provider` trait). -/
inductive Capability where
  | init
  | healthz
  | getRecords
  | setRecords
  | adjustEndpoints
deriving DecidableEq, Repr

/-- The dispatcher's route table from `serve` (src/provider.rs): method, path,
bound capability.  `serve` registers no route for `init`. -/
def serverRoutes : List (String × String × Capability) :=
  [("GET", "/healthz", .healthz),
   ("GET", "/getRecords", .getRecords),
   ("POST", "/setRecords", .setRecords),
   ("POST", "/adjustEndpoints", .adjustEndpoints)]

/-- The (method, path) the dispatcher binds a capability at, if any. -/
def serverRouteFor (c : Capability) : Option (String × String) :=
  (serverRoutes.find? fun r => decide (r.2.2 = c)).map fun r => (r.1, r.2.1)

/-- The capability the dispatcher routes a (method, path) pair to, if any. -/
def serverHandles (method path : String) : Option Capability :=
  (serverRoutes.find? fun r => decide (r.1 = method ∧ r.2.1 = path)).map fun r => r.2.2

/-- The (method, path) each client operation targets (src/client.rs), with
paths resolved against the protocol root. -/
def clientRoute : Capability → String × String
  | .init => (initRequest.method, initRequest.path)
  | .healthz => (healthzRequest.method, healthzRequest.path)
  | .getRecords => (getRecordsRequest.method, getRecordsRequest.path)
  | .setRecords => ((setRecordsRequest []).method, (setRecordsRequest []).path)
  | .adjustEndpoints => ((adjustEndpointsRequest []).method, (adjustEndpointsRequest []).path)

/-- Modelled from the spec: the routing table of spec §4.3 (method, path per
capability), for comparison with the dispatcher's `serverRoutes`. -/
def specRouteTable : Capability → String × String
  | .init => ("GET", "/")
  | .healthz => ("GET", "/healthz")
  | .getRecords => ("GET", "/records")
  | .setRecords => ("POST", "/records")
  | .adjustEndpoints => ("POST", "/adjustendpoints")

/-! ### Projections and concrete fixtures used by the theorems -/

/-- The endpoint deleted by a `Change`, if it is a `Delete`. -/
def deleteOf : Change → Option Endpoint
  | .Delete e => some e
  | _ => none

/-- The endpoint created by a `Change`, if it is a `Create`. -/
def createOf : Change → Option Endpoint
  | .Create e => some e
  | _ => none

/-- The (old, new) pairs of the `Update`s of a change list, in order. -/
def updPairs (v : List Change) : List (Endpoint × Endpoint) :=
  v.filterMap fun c =>
    match c with
    | .Update old new => some (old, new)
    | _ => none

/-- Fixture: the `update.org.` endpoint in its current state. -/
def epOld : Endpoint := ⟨⟨"update.org.", "A", ""⟩, ["192.168.0.1"], 300, [], []⟩

/-- Fixture: the `update.org.` endpoint in its desired state. -/
def epNew : Endpoint := ⟨⟨"update.org.", "A", ""⟩, ["192.168.0.2"], 300, [], []⟩

/-- Fixture: a second desired state for `update.org.`. -/
def epNew2 : Endpoint := ⟨⟨"update.org.", "A", ""⟩, ["192.168.0.3"], 300, [], []⟩

/-- Fixture: an endpoint present only in the current state. -/
def epDel : Endpoint := ⟨⟨"delete.org.", "A", ""⟩, ["192.168.0.1"], 300, [], []⟩

/-- Fixture: an endpoint present only in the desired state. -/
def epCre : Endpoint := ⟨⟨"create.org.", "A", ""⟩, ["192.168.0.1"], 300, [], []⟩

/-- Fixture: a wire `Endpoint` object whose `recordTTL` is JSON `null`. -/
def ttlNullEndpointJson : Json :=
  .obj
    [("dnsName", .str "a.org."), ("recordType", .str "A"), ("setIdentifier", .str ""),
     ("targets", .arr [.str "1.2.3.4"]), ("recordTTL", .null), ("labels", .obj []),
     ("providerSpecific", .arr [])]

/-- Fixture: the same wire `Endpoint` object with an integer `recordTTL`. -/
def ttlIntEndpointJson : Json :=
  .obj
    [("dnsName", .str "a.org."), ("recordType", .str "A"), ("setIdentifier", .str ""),
     ("targets", .arr [.str "1.2.3.4"]), ("recordTTL", .num 300), ("labels", .obj []),
     ("providerSpecific", .arr [])]

/-! ### Helper lemmas -/

theorem endpointEq_refl (e : Endpoint) : endpointEq e e = true := by
  simp [endpointEq, hashMapEq, List.all_eq_true]

theorem mapLookup_eq_some_identity {k : EndpointIdent} {l : List Endpoint} {e : Endpoint}
    (h : mapLookup k l = some e) : e.identity = k := by
  unfold mapLookup at h
  have h2 := List.find?_some h
  simpa using h2

theorem mapLookup_cons_self {e : Endpoint} {t : List Endpoint}
    (h : e.identity ∉ t.map Endpoint.identity) : mapLookup e.identity (e :: t) = some e := by
  unfold mapLookup
  rw [List.reverse_cons, List.find?_append]
  have h1 : t.reverse.find? (fun x => decide (x.identity = e.identity)) = none := by
    apply List.find?_eq_none.mpr
    intro x hx
    rw [List.mem_reverse] at hx
    simp only [decide_eq_true_eq]
    intro hxe
    exact h (hxe ▸ List.mem_map_of_mem Endpoint.identity hx)
  rw [h1]
  simp [List.find?_cons]

theorem mapLookup_cons_ne {k : EndpointIdent} {e : Endpoint} {t : List Endpoint}
    (h : k ≠ e.identity) : mapLookup k (e :: t) = mapLookup k t := by
  unfold mapLookup
  rw [List.reverse_cons, List.find?_append]
  have h1 : List.find? (fun x => decide (x.identity = k)) [e] = none := by
    simp only [List.find?_cons, List.find?_nil]
    have : decide (e.identity = k) = false := decide_eq_false fun hh => h hh.symm
    rw [this]
  rw [h1, Option.or_none]

theorem keysReduce {α : Type} (F : EndpointIdent → Endpoint → Option α) :
    ∀ (l : List Endpoint), (l.map Endpoint.identity).Nodup →
      (l.map Endpoint.identity).filterMap (fun k => (mapLookup k l).bind (F k))
        = l.filterMap fun e => F e.identity e
  | [], _ => rfl
  | e :: t, h => by
    have hhead : e.identity ∉ t.map Endpoint.identity := (List.nodup_cons.mp h).1
    have htail : (t.map Endpoint.identity).Nodup := (List.nodup_cons.mp h).2
    have h2 : (t.map Endpoint.identity).filterMap (fun k => (mapLookup k (e :: t)).bind (F k))
        = (t.map Endpoint.identity).filterMap (fun k => (mapLookup k t).bind (F k)) := by
      apply List.filterMap_congr
      intro k hk
      have hne : k ≠ e.identity := fun hke => hhead (hke ▸ hk)
      rw [mapLookup_cons_ne hne]
    rw [List.map_cons, List.filterMap_cons, List.filterMap_cons]
    simp only [mapLookup_cons_self hhead, Option.some_bind]
    cases hF : F e.identity e with
    | none => rw [h2, keysReduce F t htail]
    | some b => rw [h2, keysReduce F t htail]

theorem filterMap_if_some {α : Type} (p : EndpointIdent → Bool) (g : Endpoint → α) :
    ∀ l : List Endpoint,
      (l.filterMap fun e => if p e.identity then some (g e) else none)
        = (l.filter fun e => p e.identity).map g
  | [] => rfl
  | e :: t => by
    cases hp : p e.identity with
    | true => simp [List.filterMap_cons, List.filter_cons, hp, filterMap_if_some p g t]
    | false => simp [List.filterMap_cons, List.filter_cons, hp, filterMap_if_some p g t]

theorem mem_mapKeys {k : EndpointIdent} {l : List Endpoint} :
    k ∈ mapKeys l ↔ ∃ e ∈ l, e.identity = k := by
  simp [mapKeys, List.mem_dedup, List.mem_map]

theorem mapLookup_eq_find? {l : List Endpoint} (h : (l.map Endpoint.identity).Nodup)
    (k : EndpointIdent) :
    mapLookup k l = l.find? fun e => decide (e.identity = k) := by
  induction l with
  | nil => rfl
  | cons e t ih =>
    have hhead : e.identity ∉ t.map Endpoint.identity := (List.nodup_cons.mp h).1
    have htail := (List.nodup_cons.mp h).2
    by_cases hek : e.identity = k
    · subst hek
      rw [mapLookup_cons_self hhead]
      simp [List.find?_cons]
    · rw [mapLookup_cons_ne fun hk => hek hk.symm, ih htail, List.find?_cons]
      have hd : decide (e.identity = k) = false := decide_eq_false hek
      rw [hd]

theorem diffDeletes_eq (current desired : List Endpoint)
    (h1 : (current.map Endpoint.identity).Nodup) :
    diffDeletes current desired =
      (current.filter fun e => decide (∀ d ∈ desired, d.identity ≠ e.identity)).map
        Change.Delete := by
  unfold diffDeletes
  rw [show mapKeys current = current.map Endpoint.identity from List.dedup_eq_self.mpr h1]
  rw [List.filterMap_filter]
  have hsplit : (fun k => if decide (k ∉ mapKeys desired) = true
        then (mapLookup k current).map Change.Delete else none)
      = fun k => (mapLookup k current).bind
          fun e => if decide (k ∉ mapKeys desired) then some (Change.Delete e) else none := by
    funext k
    by_cases hk : k ∉ mapKeys desired
    · cases h : mapLookup k current <;> simp [hk, h]
    · cases h : mapLookup k current <;> simp [hk, h]
  rw [hsplit, keysReduce _ current h1]
  rw [filterMap_if_some (fun k => decide (k ∉ mapKeys desired)) Change.Delete current]
  congr 1
  apply List.filter_congr
  intro e _
  rw [decide_eq_decide]
  simp only [mem_mapKeys, not_exists]
  constructor
  · intro hne d hd hde
    exact hne d ⟨hd, hde⟩
  · intro hall d hd
    exact hall d hd.1 hd.2

theorem diffUpdates_eq (current desired : List Endpoint)
    (h1 : (current.map Endpoint.identity).Nodup)
    (h2 : (desired.map Endpoint.identity).Nodup) :
    diffUpdates current desired =
      current.filterMap fun o =>
        match desired.find? fun d => decide (d.identity = o.identity) with
        | some n => if endpointEq o n then none else some (Change.Update o n)
        | none => none := by
  unfold diffUpdates
  rw [show mapKeys current = current.map Endpoint.identity from List.dedup_eq_self.mpr h1]
  rw [List.filterMap_filter]
  have hsplit : (fun k => if decide (k ∈ mapKeys desired) = true
        then (match mapLookup k current, mapLookup k desired with
              | some old, some new =>
                  if endpointEq old new then none else some (Change.Update old new)
              | _, _ => none)
        else none)
      = fun k => (mapLookup k current).bind fun o =>
          if decide (k ∈ mapKeys desired) then
            match mapLookup k desired with
            | some n => if endpointEq o n then none else some (Change.Update o n)
            | none => none
          else none := by
    funext k
    by_cases hk : k ∈ mapKeys desired
    · cases h : mapLookup k current <;> cases h' : mapLookup k desired <;> simp [hk, h, h']
    · cases h : mapLookup k current <;> simp [hk, h]
  rw [hsplit, keysReduce _ current h1]
  apply List.filterMap_congr
  intro o _
  by_cases hk : o.identity ∈ mapKeys desired
  · simp [hk, mapLookup_eq_find? h2]
  · have hf : desired.find? (fun d => decide (d.identity = o.identity)) = none := by
      apply List.find?_eq_none.mpr
      intro d hd
      simp only [decide_eq_true_eq]
      intro hdo
      exact hk (mem_mapKeys.mpr ⟨d, hd, hdo⟩)
    simp [hk, hf]

theorem diffCreates_eq (current desired : List Endpoint)
    (h2 : (desired.map Endpoint.identity).Nodup) :
    diffCreates current desired =
      (desired.filter fun e => decide (∀ c ∈ current, c.identity ≠ e.identity)).map
        Change.Create := by
  unfold diffCreates
  rw [show mapKeys desired = desired.map Endpoint.identity from List.dedup_eq_self.mpr h2]
  rw [List.filterMap_filter]
  have hsplit : (fun k => if decide (k ∉ mapKeys current) = true
        then (mapLookup k desired).map Change.Create else none)
      = fun k => (mapLookup k desired).bind
          fun e => if decide (k ∉ mapKeys current) then some (Change.Create e) else none := by
    funext k
    by_cases hk : k ∉ mapKeys current
    · cases h : mapLookup k desired <;> simp [hk, h]
    · cases h : mapLookup k desired <;> simp [hk, h]
  rw [hsplit, keysReduce _ desired h2]
  rw [filterMap_if_some (fun k => decide (k ∉ mapKeys current)) Change.Create desired]
  congr 1
  apply List.filter_congr
  intro e _
  rw [decide_eq_decide]
  simp only [mem_mapKeys, not_exists]
  constructor
  · intro hne c hc hce
    exact hne c ⟨hc, hce⟩
  · intro hall c hc
    exact hall c hc.1 hc.2

theorem filterMap_ident_sublist (keys : List EndpointIdent) (g : EndpointIdent → Option Change)
    (hg : ∀ k c, g k = some c → changeIdent c = k) :
    ((keys.filterMap g).map changeIdent).Sublist keys := by
  induction keys with
  | nil => simp
  | cons k t ih =>
    rw [List.filterMap_cons]
    cases hk : g k with
    | none => exact ih.cons k
    | some c =>
      rw [List.map_cons, hg k c hk]
      exact ih.cons₂ k

theorem foldl_push_map {α β : Type} (f : α → β) :
    ∀ (l : List α) (acc : List β),
      l.foldl (fun out e => out ++ [f e]) acc = acc ++ l.map f
  | [], acc => by simp
  | e :: t, acc => by
    rw [List.foldl_cons, foldl_push_map f t (acc ++ [f e])]
    simp

theorem foldl_push_toList {α β : Type} (f : α → Option β) :
    ∀ (l : List α) (acc : List β),
      l.foldl (fun out e => out ++ (f e).toList) acc = acc ++ l.filterMap f
  | [], acc => by simp
  | e :: t, acc => by
    rw [List.foldl_cons, foldl_push_toList f t (acc ++ (f e).toList)]
    cases hf : f e <;> simp [hf, List.filterMap_cons]

theorem changesToVec_closed (changes : Changes) :
    changesToVec changes =
      changes.delete.map Change.Delete
      ++ (changes.updateOld.filterMap fun old =>
          (changes.updateNew.find? fun n => decide (n.identity = old.identity)).map
            fun n => Change.Update old n)
      ++ changes.create.map Change.Create := by
  unfold changesToVec
  have hstep : (fun (out : List Change) old =>
      match changes.updateNew.find? fun n => decide (n.identity = old.identity) with
      | some n => out ++ [Change.Update old n]
      | none => out)
      = fun out old =>
          out ++ ((changes.updateNew.find? fun n => decide (n.identity = old.identity)).map
            fun n => Change.Update old n).toList := by
    funext out old
    cases hf : changes.updateNew.find? fun n => decide (n.identity = old.identity) <;>
      simp [hf]
  rw [hstep, foldl_push_map, foldl_push_toList, foldl_push_map]
  simp

theorem vecToChanges_foldl :
    ∀ (v : List Change) (acc : Changes),
      (v.foldl (fun out change =>
        match change with
        | .Update old new =>
            { out with updateOld := out.updateOld ++ [old], updateNew := out.updateNew ++ [new] }
        | .Delete e => { out with delete := out.delete ++ [e] }
        | .Create e => { out with create := out.create ++ [e] }) acc)
      = ⟨acc.create ++ v.filterMap createOf,
         acc.updateOld ++ (updPairs v).map Prod.fst,
         acc.updateNew ++ (updPairs v).map Prod.snd,
         acc.delete ++ v.filterMap deleteOf⟩
  | [], acc => by simp [updPairs]
  | c :: t, acc => by
    rw [List.foldl_cons, vecToChanges_foldl t _]
    cases c <;> simp [updPairs, createOf, deleteOf, List.filterMap_cons]

theorem vecToChanges_eq (v : List Change) :
    vecToChanges v =
      ⟨v.filterMap createOf, (updPairs v).map Prod.fst,
       (updPairs v).map Prod.snd, v.filterMap deleteOf⟩ := by
  unfold vecToChanges
  rw [vecToChanges_foldl v ⟨[], [], [], []⟩]
  simp

theorem updPairs_filterMap :
    ∀ P : List (Endpoint × Endpoint),
      ((P.map fun p => p.1.identity).Nodup) →
      (∀ p ∈ P, p.1.identity = p.2.identity) →
      ((P.map Prod.fst).filterMap fun old =>
        ((P.map Prod.snd).find? fun n => decide (n.identity = old.identity)).map
          fun n => Change.Update old n)
        = P.map fun p => Change.Update p.1 p.2
  | [], _, _ => rfl
  | (o, n) :: T, hnodup, hmatch => by
    have hhead : o.identity ∉ T.map fun p => p.1.identity := by
      have hh := (List.nodup_cons.mp hnodup).1
      simpa using hh
    have htail := (List.nodup_cons.mp hnodup).2
    have hon : o.identity = n.identity := hmatch (o, n) (List.mem_cons_self _ _)
    have hfind : ((n :: T.map Prod.snd).find? fun m => decide (m.identity = o.identity))
        = some n := by
      rw [List.find?_cons]
      have hd : decide (n.identity = o.identity) = true := decide_eq_true hon.symm
      rw [hd]
    have htaileq : ((T.map Prod.fst).filterMap fun old =>
        ((n :: T.map Prod.snd).find? fun m => decide (m.identity = old.identity)).map
          fun m => Change.Update old m)
        = (T.map Prod.fst).filterMap fun old =>
            ((T.map Prod.snd).find? fun m => decide (m.identity = old.identity)).map
              fun m => Change.Update old m := by
      apply List.filterMap_congr
      intro old hold
      rw [List.find?_cons]
      have hne : decide (n.identity = old.identity) = false := by
        apply decide_eq_false
        intro hno
        rcases List.mem_map.mp hold with ⟨p, hp, hpe⟩
        apply hhead
        rw [hon, hno, ← hpe]
        exact List.mem_map_of_mem _ hp
      rw [hne]
    have hrec := updPairs_filterMap T htail fun p hp => hmatch p (List.mem_cons_of_mem _ hp)
    simp only [List.map_cons, List.filterMap_cons, hfind, htaileq, hrec]
    rfl

theorem mem_update_filterMap {olds news : List Endpoint} {c : Change}
    (h : c ∈ olds.filterMap fun old =>
      (news.find? fun n => decide (n.identity = old.identity)).map
        fun n => Change.Update old n) :
    ∃ old n, c = Change.Update old n := by
  rcases List.mem_filterMap.mp h with ⟨old, _, hsome⟩
  cases hf : news.find? fun n => decide (n.identity = old.identity) with
  | none => rw [hf] at hsome; cases hsome
  | some m =>
    rw [hf] at hsome
    simp at hsome
    exact ⟨old, m, hsome.symm⟩

theorem filter_map_keep (f : Endpoint → Change) (p : Change → Bool)
    (hp : ∀ e, p (f e) = true) (X : List Endpoint) : (X.map f).filter p = X.map f :=
  List.filter_eq_self.mpr (by
    intro c hc
    rcases List.mem_map.mp hc with ⟨e, _, rfl⟩
    exact hp e)

theorem filter_map_drop (f : Endpoint → Change) (p : Change → Bool)
    (hp : ∀ e, p (f e) = false) (X : List Endpoint) : (X.map f).filter p = [] :=
  List.filter_eq_nil_iff.mpr (by
    intro c hc
    rcases List.mem_map.mp hc with ⟨e, _, rfl⟩
    simp [hp e])

theorem filter_updGroup_keep (olds news : List Endpoint) :
    ((olds.filterMap fun old =>
        (news.find? fun n => decide (n.identity = old.identity)).map
          fun n => Change.Update old n).filter isUpdateChange)
      = olds.filterMap fun old =>
          (news.find? fun n => decide (n.identity = old.identity)).map
            fun n => Change.Update old n :=
  List.filter_eq_self.mpr (by
    intro c hc
    rcases mem_update_filterMap hc with ⟨o, m, rfl⟩
    rfl)

theorem filter_updGroup_drop (p : Change → Bool) (hp : ∀ o n, p (Change.Update o n) = false)
    (olds news : List Endpoint) :
    ((olds.filterMap fun old =>
        (news.find? fun n => decide (n.identity = old.identity)).map
          fun n => Change.Update old n).filter p) = [] :=
  List.filter_eq_nil_iff.mpr (by
    intro c hc
    rcases mem_update_filterMap hc with ⟨o, m, rfl⟩
    simp [hp o m])

theorem filter_isDelete_eq : ∀ v : List Change,
    v.filter isDeleteChange = (v.filterMap deleteOf).map Change.Delete
  | [] => rfl
  | c :: t => by
    cases c <;> simp [List.filter_cons, List.filterMap_cons, isDeleteChange, deleteOf,
      filter_isDelete_eq t]

theorem filter_isCreate_eq : ∀ v : List Change,
    v.filter isCreateChange = (v.filterMap createOf).map Change.Create
  | [] => rfl
  | c :: t => by
    cases c <;> simp [List.filter_cons, List.filterMap_cons, isCreateChange, createOf,
      filter_isCreate_eq t]

theorem filter_isUpdate_eq : ∀ v : List Change,
    v.filter isUpdateChange = (updPairs v).map fun p => Change.Update p.1 p.2
  | [] => rfl
  | c :: t => by
    cases c <;> simp [List.filter_cons, updPairs, List.filterMap_cons, isUpdateChange,
      filter_isUpdate_eq t]

theorem roundtrip_out_eq (v : List Change) :
    changesToVec (vecToChanges v) =
      (v.filterMap deleteOf).map Change.Delete
      ++ (((updPairs v).map Prod.fst).filterMap fun old =>
          (((updPairs v).map Prod.snd).find? fun n => decide (n.identity = old.identity)).map
            fun n => Change.Update old n)
      ++ (v.filterMap createOf).map Change.Create := by
  rw [vecToChanges_eq, changesToVec_closed]

/-! ### Claim theorems -/

/-- C1 (code bug evaluation): the dispatcher's `serve` route table does not
match the spec's routing table nor the client's targets.  Only `healthz`
agrees: the dispatcher binds `GET /getRecords`, `POST /setRecords` and
`POST /adjustEndpoints` while the client (like the spec table) issues
`GET /records`, `POST /records` and `POST /adjustendpoints` — none of which
the dispatcher routes — and the dispatcher has no route at the protocol root
for `init` at all. -/
theorem dispatcher_route_divergence :
    serverRouteFor Capability.healthz = some ("GET", "/healthz") ∧
    clientRoute Capability.healthz = ("GET", "/healthz") ∧
    specRouteTable Capability.healthz = ("GET", "/healthz") ∧
    serverRouteFor Capability.getRecords = some ("GET", "/getRecords") ∧
    clientRoute Capability.getRecords = ("GET", "/records") ∧
    specRouteTable Capability.getRecords = ("GET", "/records") ∧
    serverHandles "GET" "/records" = none ∧
    serverRouteFor Capability.setRecords = some ("POST", "/setRecords") ∧
    clientRoute Capability.setRecords = ("POST", "/records") ∧
    specRouteTable Capability.setRecords = ("POST", "/records") ∧
    serverHandles "POST" "/records" = none ∧
    serverRouteFor Capability.adjustEndpoints = some ("POST", "/adjustEndpoints") ∧
    clientRoute Capability.adjustEndpoints = ("POST", "/adjustendpoints") ∧
    specRouteTable Capability.adjustEndpoints = ("POST", "/adjustendpoints") ∧
    serverHandles "POST" "/adjustendpoints" = none ∧
    serverRouteFor Capability.init = none ∧
    clientRoute Capability.init = ("GET", "/") ∧
    specRouteTable Capability.init = ("GET", "/") := by
  decide

/-- C3 (amended): for every response with a non-2xx status whose body is
valid UTF-8, `Client::parse_response` returns `Error::Webhook(status, text)`
with the decoded body text passed through verbatim, and the result does not
depend on the JSON parser for the expected shape (no JSON parsing of the body
is attempted).  Bodies that are not valid UTF-8 instead fail with
`Error::InvalidUtf8` regardless of status (see the counterexample). -/
theorem parse_response_remote_error {T : Type} (parse : String → Option T)
    (status : Nat) (body : List Nat) (text : String)
    (hutf8 : fromUtf8 body = some text) (hstatus : isSuccessStatus status = false) :
    parse_response parse status body = .error (.Webhook status text) := by
  simp [parse_response, hutf8, hstatus]

/-- Witness for the amended C3 at status 500 and body bytes `"boom"`. -/
theorem parse_response_remote_error_witness :
    fromUtf8 [98, 111, 111, 109] = some "boom" ∧ isSuccessStatus 500 = false ∧
    parse_response (fun _ => (none : Option Nat)) 500 [98, 111, 111, 109] =
      .error (.Webhook 500 "boom") :=
  ⟨by decide, by decide,
    parse_response_remote_error _ 500 [98, 111, 111, 109] "boom" (by decide) (by decide)⟩

/-- C3 counterexample: a 500 response whose body is the invalid UTF-8 byte
`0xFF` decodes to `Error::InvalidUtf8`, not to the remote error the claim
requires for every non-2xx response regardless of body content (UTF-8
validation happens before the status check). -/
theorem parse_response_invalid_utf8_counterexample :
    parse_response (fun _ => (none : Option Nat)) 500 [255] = .error .InvalidUtf8 ∧
    isRemoteError .InvalidUtf8 = false ∧ isSuccessStatus 500 = false :=
  ⟨rfl, rfl, by decide⟩

/-- C4: diffing any endpoint list against itself yields no changes
(idempotence of `EndpointDiff::difference`). -/
theorem difference_self (S : List Endpoint) : difference S S = [] := by
  have hfilter : ((mapKeys S).filter fun k => decide (k ∉ mapKeys S)) = [] :=
    List.filter_eq_nil_iff.mpr fun k hk => by simp [hk]
  have hdel : diffDeletes S S = [] := by
    rw [diffDeletes, hfilter, List.filterMap_nil]
  have hcre : diffCreates S S = [] := by
    rw [diffCreates, hfilter, List.filterMap_nil]
  have hupd : diffUpdates S S = [] := by
    apply List.filterMap_eq_nil_iff.mpr
    intro k _
    cases h : mapLookup k S with
    | none => simp [h]
    | some o => simp [h, endpointEq_refl]
  rw [difference, hdel, hupd, hcre, List.append_nil, List.append_nil]

/-- C7 (code bug evaluation): the wire codec rejects an `Endpoint` object
whose `recordTTL` is JSON `null` (the code's `record_ttl: i64` requires an
integer), while the identical object with an integer `recordTTL`
deserializes; the claim (and the repo's own e2e test, which builds
`record_ttl: Some(300)`) treats the ttl as optional. -/
theorem recordTTL_null_rejected :
    deserializeEndpoint ttlNullEndpointJson = none ∧
    deserializeEndpoint ttlIntEndpointJson =
      some ⟨⟨"a.org.", "A", ""⟩, ["1.2.3.4"], 300, [], []⟩ := by
  refine ⟨by decide, by decide⟩

/-- C8: the client operations without a payload (healthz, getRecords, init)
build requests with no body and no `Content-Type` header; the payload-bearing
operations (setRecords, adjustEndpoints) have a body and set `Content-Type`
to the webhook media type. -/
theorem client_null_body_omission (changes : List Change) (endpoints : List Endpoint) :
    healthzRequest.body = none ∧ healthzRequest.contentType = none ∧
    getRecordsRequest.body = none ∧ getRecordsRequest.contentType = none ∧
    initRequest.body = none ∧ initRequest.contentType = none ∧
    (setRecordsRequest changes).body.isSome = true ∧
    (setRecordsRequest changes).contentType = some mediaType ∧
    (adjustEndpointsRequest endpoints).body.isSome = true ∧
    (adjustEndpointsRequest endpoints).contentType = some mediaType :=
  ⟨rfl, rfl, rfl, rfl, rfl, rfl, rfl, rfl, rfl, rfl⟩

/-- C9: `Client::set_records` never fails with `Error::InvalidUtf8`; on every
2xx status it returns unit without inspecting the body, and on every non-2xx
status it returns `Error::Webhook(status, text)` with the body decoded
lossily — unlike the strict decode pipeline of `parse_response`. -/
theorem set_records_decode_spec (status : Nat) (body : List Nat) :
    set_records_decode status body ≠ .error .InvalidUtf8 ∧
    (isSuccessStatus status = true → set_records_decode status body = .ok ()) ∧
    (isSuccessStatus status = false →
      set_records_decode status body = .error (.Webhook status (fromUtf8Lossy body))) := by
  refine ⟨?_, fun h => by simp [set_records_decode, h], fun h => by simp [set_records_decode, h]⟩
  unfold set_records_decode
  split <;> simp

/-- Witness for C9 at status 500 and the invalid UTF-8 body `0xFF`. -/
theorem set_records_decode_spec_witness :
    isSuccessStatus 500 = false ∧
    set_records_decode 500 [255] = .error (.Webhook 500 (fromUtf8Lossy [255])) :=
  ⟨by decide, (set_records_decode_spec 500 [255]).2.2 (by decide)⟩

/-- C2: when identities are distinct within each input list,
`EndpointDiff::difference` emits exactly one `Delete` carrying the current
endpoint for each identity present only in `current`, one `Update {old, new}`
for each identity present in both whose endpoints are not fully equal
(nothing when they compare equal), and one `Create` carrying the desired
endpoint for each identity present only in `desired`; the output lists all
deletes first, then all updates, then all creates (the embedding fixes the
unspecified within-group order to input order). -/
theorem difference_groups (current desired : List Endpoint)
    (h1 : (current.map Endpoint.identity).Nodup)
    (h2 : (desired.map Endpoint.identity).Nodup) :
    difference current desired =
      (current.filter fun e => decide (∀ d ∈ desired, d.identity ≠ e.identity)).map Change.Delete
      ++ (current.filterMap fun o =>
          match desired.find? fun d => decide (d.identity = o.identity) with
          | some n => if endpointEq o n then none else some (Change.Update o n)
          | none => none)
      ++ (desired.filter fun e => decide (∀ c ∈ current, c.identity ≠ e.identity)).map
          Change.Create := by
  rw [difference, diffDeletes_eq current desired h1, diffUpdates_eq current desired h1 h2,
    diffCreates_eq current desired h2]

/-- Witness for C2 on the spec's Scenario 2: current has `update.org.` (old
target) and `delete.org.`, desired has `update.org.` (new target) and
`create.org.`. -/
theorem difference_groups_witness :
    ([epOld, epDel].map Endpoint.identity).Nodup ∧
    ([epNew, epCre].map Endpoint.identity).Nodup ∧
    difference [epOld, epDel] [epNew, epCre] =
      ([epOld, epDel].filter fun e =>
          decide (∀ d ∈ [epNew, epCre], d.identity ≠ e.identity)).map Change.Delete
      ++ ([epOld, epDel].filterMap fun o =>
          match [epNew, epCre].find? fun d => decide (d.identity = o.identity) with
          | some n => if endpointEq o n then none else some (Change.Update o n)
          | none => none)
      ++ ([epNew, epCre].filter fun e =>
          decide (∀ c ∈ [epOld, epDel], c.identity ≠ e.identity)).map Change.Create :=
  ⟨by decide, by decide,
    difference_groups [epOld, epDel] [epNew, epCre] (by decide) (by decide)⟩

/-- C10: for every pair of endpoint lists, each `EndpointIdent` keys at most
one change in the output of `difference` — the identities of the emitted
deletes, updates and creates are all distinct (hence pairwise disjoint
between the groups) — and every emitted `Update` pairs an old and a new
endpoint with the same identity. -/
theorem difference_identity_unique (current desired : List Endpoint) :
    ((difference current desired).map changeIdent).Nodup ∧
    ∀ old new, Change.Update old new ∈ difference current desired →
      old.identity = new.identity := by
  have hgdel : ∀ k c, (mapLookup k current).map Change.Delete = some c → changeIdent c = k := by
    intro k c hc
    cases h : mapLookup k current with
    | none => rw [h] at hc; cases hc
    | some e =>
      rw [h] at hc
      cases hc
      exact mapLookup_eq_some_identity h
  have hgcre : ∀ k c, (mapLookup k desired).map Change.Create = some c → changeIdent c = k := by
    intro k c hc
    cases h : mapLookup k desired with
    | none => rw [h] at hc; cases hc
    | some e =>
      rw [h] at hc
      cases hc
      exact mapLookup_eq_some_identity h
  have hgupd : ∀ k c,
      (match mapLookup k current, mapLookup k desired with
        | some old, some new => if endpointEq old new then none else some (Change.Update old new)
        | _, _ => none) = some c → changeIdent c = k := by
    intro k c hc
    cases ho : mapLookup k current with
    | none => rw [ho] at hc; cases hc
    | some o =>
      cases hn : mapLookup k desired with
      | none => rw [ho, hn] at hc; cases hc
      | some n =>
        rw [ho, hn] at hc
        by_cases he : endpointEq o n = true
        · simp [he] at hc
        · simp [he] at hc
          rw [← hc]
          exact mapLookup_eq_some_identity ho
  have hdelsub : ((diffDeletes current desired).map changeIdent).Sublist
      ((mapKeys current).filter fun k => decide (k ∉ mapKeys desired)) :=
    filterMap_ident_sublist _ _ hgdel
  have hupdsub : ((diffUpdates current desired).map changeIdent).Sublist
      ((mapKeys current).filter fun k => decide (k ∈ mapKeys desired)) :=
    filterMap_ident_sublist _ _ hgupd
  have hcresub : ((diffCreates current desired).map changeIdent).Sublist
      ((mapKeys desired).filter fun k => decide (k ∉ mapKeys current)) :=
    filterMap_ident_sublist _ _ hgcre
  have hmemdel : ∀ a ∈ (diffDeletes current desired).map changeIdent,
      a ∈ mapKeys current ∧ a ∉ mapKeys desired := by
    intro a ha
    have hmem := List.mem_filter.mp (hdelsub.subset ha)
    exact ⟨hmem.1, by simpa using hmem.2⟩
  have hmemupd : ∀ a ∈ (diffUpdates current desired).map changeIdent,
      a ∈ mapKeys current ∧ a ∈ mapKeys desired := by
    intro a ha
    have hmem := List.mem_filter.mp (hupdsub.subset ha)
    exact ⟨hmem.1, by simpa using hmem.2⟩
  have hmemcre : ∀ a ∈ (diffCreates current desired).map changeIdent,
      a ∈ mapKeys desired ∧ a ∉ mapKeys current := by
    intro a ha
    have hmem := List.mem_filter.mp (hcresub.subset ha)
    exact ⟨hmem.1, by simpa using hmem.2⟩
  constructor
  · rw [difference, List.map_append, List.map_append, List.nodup_append, List.nodup_append]
    refine ⟨⟨hdelsub.nodup ((List.nodup_dedup _).filter _),
      hupdsub.nodup ((List.nodup_dedup _).filter _), ?_⟩,
      hcresub.nodup ((List.nodup_dedup _).filter _), ?_⟩
    · intro a ha hb
      exact (hmemdel a ha).2 (hmemupd a hb).2
    · intro a ha hb
      rcases List.mem_append.mp ha with ha | ha
      · exact (hmemcre a hb).2 (hmemdel a ha).1
      · exact (hmemcre a hb).2 (hmemupd a ha).1
  · intro old new hmem
    rw [difference] at hmem
    have hupd : Change.Update old new ∈ diffUpdates current desired := by
      rcases List.mem_append.mp hmem with h | h
      · rcases List.mem_append.mp h with h | h
        · exfalso
          rcases List.mem_filterMap.mp h with ⟨k, _, hgen⟩
          cases hl : mapLookup k current with
          | none => rw [hl] at hgen; cases hgen
          | some e => rw [hl] at hgen; cases hgen
        · exact h
      · exfalso
        rcases List.mem_filterMap.mp h with ⟨k, _, hgen⟩
        cases hl : mapLookup k desired with
        | none => rw [hl] at hgen; cases hgen
        | some e => rw [hl] at hgen; cases hgen
    rcases List.mem_filterMap.mp hupd with ⟨k, _, hgen⟩
    cases ho : mapLookup k current with
    | none => rw [ho] at hgen; cases hgen
    | some o =>
      cases hn : mapLookup k desired with
      | none => rw [ho, hn] at hgen; cases hgen
      | some n =>
        rw [ho, hn] at hgen
        by_cases he : endpointEq o n = true
        · simp [he] at hgen
        · simp [he] at hgen
          rw [← hgen.1, ← hgen.2]
          rw [mapLookup_eq_some_identity ho, mapLookup_eq_some_identity hn]

/-- Witness for C10: the sole `Update` emitted by diffing the current and
desired states of `update.org.` relates endpoints with equal identities. -/
theorem difference_identity_unique_witness : epOld.identity = epNew.identity :=
  (difference_identity_unique [epOld] [epNew]).2 epOld epNew (by decide)

/-- C5: converting a `Changes` batch to a change list emits one `Delete` per
`delete` entry in order, then for each `updateOld` entry in order an
`Update {old, new}` whose `new` is the first `updateNew` entry with matching
identity (an `updateOld` entry with no identity match in `updateNew` is
silently dropped), and finally one `Create` per `create` entry in order. -/
theorem changes_batch_to_vec (changes : Changes) :
    changesToVec changes =
      changes.delete.map Change.Delete
      ++ (changes.updateOld.filterMap fun old =>
          (changes.updateNew.find? fun n => decide (n.identity = old.identity)).map
            fun n => Change.Update old n)
      ++ changes.create.map Change.Create :=
  changesToVec_closed changes

/-- C6 (amended): converting an ordered change list to a `Changes` batch and
back preserves the `Delete` and `Create` entries (even their order, hence the
multiset); the `Update` entries are preserved when all `Update` old-side
identities in the input are distinct and each `Update` satisfies
`old.identity = new.identity`.  The claim's weaker side condition — merely
requiring every `updateOld` identity to have a matching `updateNew`
identity — is not sufficient (see the counterexample). -/
theorem roundtrip_changes (v : List Change) :
    List.Perm ((changesToVec (vecToChanges v)).filter isDeleteChange)
      (v.filter isDeleteChange) ∧
    List.Perm ((changesToVec (vecToChanges v)).filter isCreateChange)
      (v.filter isCreateChange) ∧
    (((updPairs v).map fun p => p.1.identity).Nodup →
      (∀ p ∈ updPairs v, p.1.identity = p.2.identity) →
      List.Perm ((changesToVec (vecToChanges v)).filter isUpdateChange)
        (v.filter isUpdateChange)) := by
  refine ⟨?_, ?_, fun hnodup hmatch => ?_⟩
  · rw [roundtrip_out_eq v, List.filter_append, List.filter_append,
      filter_map_keep Change.Delete isDeleteChange (fun e => rfl),
      filter_updGroup_drop isDeleteChange (fun o n => rfl),
      filter_map_drop Change.Create isDeleteChange (fun e => rfl),
      List.append_nil, List.append_nil, filter_isDelete_eq]
  · rw [roundtrip_out_eq v, List.filter_append, List.filter_append,
      filter_map_drop Change.Delete isCreateChange (fun e => rfl),
      filter_updGroup_drop isCreateChange (fun o n => rfl),
      filter_map_keep Change.Create isCreateChange (fun e => rfl),
      List.append_nil, List.nil_append, filter_isCreate_eq]
  · rw [roundtrip_out_eq v, List.filter_append, List.filter_append,
      filter_map_drop Change.Delete isUpdateChange (fun e => rfl),
      filter_updGroup_keep,
      filter_map_drop Change.Create isUpdateChange (fun e => rfl),
      List.append_nil, List.nil_append,
      updPairs_filterMap (updPairs v) hnodup hmatch, filter_isUpdate_eq]

/-- Witness for C6 on a single well-formed `Update`. -/
theorem roundtrip_changes_witness :
    List.Perm ((changesToVec (vecToChanges [Change.Update epOld epNew])).filter isUpdateChange)
      ([Change.Update epOld epNew].filter isUpdateChange) :=
  (roundtrip_changes [Change.Update epOld epNew]).2.2 (by decide) (by decide)

/-- C6 counterexample: for two `Update`s sharing one identity the claim's
side condition holds (every `updateOld` identity has a matching `updateNew`
identity in the produced batch), yet the round trip pairs both old endpoints
with the first new endpoint and the `Update` multiset is not preserved. -/
theorem roundtrip_updates_counterexample :
    ((vecToChanges [Change.Update epOld epNew, Change.Update epOld epNew2]).updateOld.all
        fun old =>
      (vecToChanges [Change.Update epOld epNew, Change.Update epOld epNew2]).updateNew.any
        fun n => n.identity == old.identity) = true ∧
    ¬ List.Perm
      ((changesToVec (vecToChanges
        [Change.Update epOld epNew, Change.Update epOld epNew2])).filter isUpdateChange)
      ([Change.Update epOld epNew, Change.Update epOld epNew2].filter isUpdateChange) := by
  refine ⟨by decide, fun hperm => ?_⟩
  exact absurd (hperm.count_eq (Change.Update epOld epNew2)) (by decide)

end ExternalDnsSdk
